import Mathlib

/-!
Verification of the `easy-aria` attribute codec (`src/EasyAria.ts`).

The development shallowly embeds the runtime behaviour of the `EasyAria`
class: its `set`, `get` and `unset` operations over the wrapped element's
attribute store, together with the private identifier-resolution helpers
(`#getId`, `#generateId`, the static id counter).

Modelling conventions:
  * The wrapped element's attribute store is an association list from full
    attribute names (such as "aria-checked") to raw string values, with the
    DOM operations `getAttribute` / `setAttribute` / `removeAttribute`.
  * Element handles referenced by IDREF attributes are natural numbers; the
    document-wide state `Doc` records each handle's `id` field (the empty
    string models a missing id, as in the DOM) and the static id counter.
  * JavaScript runtime values passed to `set` are the inductive `JSValue`;
    `typeof` / `instanceof` dispatch becomes pattern matching.
  * JavaScript numbers are modelled in their integer fragment: `Number(s)`
    on a string trims surrounding whitespace, maps the empty remainder to 0
    and parses an optionally signed decimal digit run, anything else being
    NaN.  Decimal fractions, exponent and radix forms of JS numeric
    literals are outside the model; every numeric literal appearing in the
    repository (source and tests) is in the modelled fragment.
  * `throw new TypeError` is modelled by an error result; messages of the
    form "Invalid attribute: ..." are `invalidAttribute`, the per-domain
    value complaints are `invalidValue`, matching the spec's two kinds.
-/

namespace EasyAria

/-- Errors surfaced by the codec: unknown attribute name, or a value outside
the attribute's domain.  Both correspond to `throw new TypeError` sites in
the source. -/
inductive CodecError where
  | invalidAttribute
  | invalidValue
deriving DecidableEq, Repr

/-- A JavaScript number restricted to the integer fragment
(see the module docstring), plus NaN. -/
inductive JSNum where
  | nan
  | int (i : Int)
deriving DecidableEq, Repr

/-- Characters treated as whitespace by the JS `Number` string conversion
(space, tab, LF, VT, FF, CR), identified by code point. -/
def isJsSpace (c : Char) : Bool :=
  c.toNat = 32 || c.toNat = 9 || c.toNat = 10 || c.toNat = 11 ||
    c.toNat = 12 || c.toNat = 13

/-- Decimal digit character for a value below ten (code points 48-57). -/
def digitChar (d : Nat) : Char :=
  Char.ofNat (48 + d)

/-- Decimal digit characters of a natural number, most significant first
(the digit run produced by JS number-to-string for naturals). -/
def natToDigits (n : Nat) : List Char :=
  if _h : n < 10 then [digitChar n]
  else natToDigits (n / 10) ++ [digitChar (n % 10)]
termination_by n
decreasing_by exact Nat.div_lt_self (by omega) (by omega)

/-- Value of a decimal digit run; `none` if some character is not a digit. -/
def digitsToNat (cs : List Char) : Option Nat :=
  cs.foldl
    (fun acc c =>
      match acc with
      | none => none
      | some n =>
          if 48 ≤ c.toNat ∧ c.toNat ≤ 57 then some (10 * n + (c.toNat - 48))
          else none)
    (some 0)

/-- Parse of a nonempty decimal digit run (a signless JS integer literal). -/
def parseDigits (cs : List Char) : Option Nat :=
  match cs with
  | [] => none
  | _ => digitsToNat cs

/-- Both-ends whitespace trim, as performed by JS `Number` on strings. -/
def trimChars (cs : List Char) : List Char :=
  ((cs.dropWhile isJsSpace).reverse.dropWhile isJsSpace).reverse

/-- JS `Number(string)` on the trimmed character list: empty means 0, an
optional sign precedes a digit run, anything else is NaN. -/
def jsNumOfChars (cs : List Char) : JSNum :=
  match cs with
  | [] => .int 0
  | c :: rest =>
      if c.toNat = 45 then
        match parseDigits rest with
        | some n => .int (-(n : Int))
        | none => .nan
      else if c.toNat = 43 then
        match parseDigits rest with
        | some n => .int (n : Int)
        | none => .nan
      else
        match parseDigits (c :: rest) with
        | some n => .int (n : Int)
        | none => .nan

/-- JS `Number(s)` for a string `s` (integer fragment). -/
def jsNumOfString (s : String) : JSNum :=
  jsNumOfChars (trimChars s.data)

/-- JS `String(n)` for a natural number. -/
def natToString (n : Nat) : String :=
  ⟨natToDigits n⟩

/-- JS `String(n)` for an integer-valued number. -/
def intToString (n : Int) : String :=
  if n < 0 then "-" ++ natToString n.natAbs else natToString n.toNat

/-- Lowercasing of a single character in the ASCII range (code points
65-90 shift to 97-122), as JS `toLowerCase` acts on the ASCII fragment
relevant to attribute names. -/
def charToLower (c : Char) : Char :=
  if 65 ≤ c.toNat ∧ c.toNat ≤ 90 then Char.ofNat (c.toNat + 32) else c

/-- JS `String.prototype.toLowerCase` (ASCII fragment), applied by `set`,
`get` and `unset` to the attribute name before dispatch. -/
def jsToLowerCase (s : String) : String :=
  ⟨s.data.map charToLower⟩

theorem digitsToNat_append (xs ys : List Char) :
    digitsToNat (xs ++ ys) =
      ys.foldl
        (fun acc c =>
          match acc with
          | none => none
          | some n =>
              if 48 ≤ c.toNat ∧ c.toNat ≤ 57 then
                some (10 * n + (c.toNat - 48))
              else none)
        (digitsToNat xs) := by
  simp [digitsToNat, List.foldl_append]

theorem digitChar_toNat {d : Nat} (h : d < 10) :
    (digitChar d).toNat = 48 + d := by
  interval_cases d <;> decide

theorem natToDigits_ne_nil (n : Nat) : natToDigits n ≠ [] := by
  unfold natToDigits
  split <;> simp

theorem natToDigits_digits (n : Nat) :
    ∀ c ∈ natToDigits n, 48 ≤ c.toNat ∧ c.toNat ≤ 57 := by
  induction n using Nat.strong_induction_on with
  | _ n ih =>
    unfold natToDigits
    split
    · next h =>
      intro c hc
      simp only [List.mem_singleton] at hc
      subst hc
      rw [digitChar_toNat h]
      omega
    · next h =>
      intro c hc
      simp only [List.mem_append, List.mem_singleton] at hc
      rcases hc with hc | hc
      · exact ih (n / 10) (Nat.div_lt_self (by omega) (by omega)) c hc
      · subst hc
        rw [digitChar_toNat (Nat.mod_lt _ (by omega))]
        omega

/-- Decoding round trip: the decimal digit run of `n` parses back to `n`. -/
theorem digitsToNat_natToDigits (n : Nat) :
    digitsToNat (natToDigits n) = some n := by
  induction n using Nat.strong_induction_on with
  | _ n ih =>
    unfold natToDigits
    split
    · next h =>
      simp only [digitsToNat, List.foldl_cons, List.foldl_nil]
      rw [if_pos (by rw [digitChar_toNat h]; omega)]
      rw [digitChar_toNat h]
      congr 1
      omega
    · next h =>
      rw [digitsToNat_append,
        ih (n / 10) (Nat.div_lt_self (by omega) (by omega))]
      simp only [List.foldl_cons, List.foldl_nil]
      rw [if_pos (by rw [digitChar_toNat (Nat.mod_lt _ (by omega))]; omega)]
      rw [digitChar_toNat (Nat.mod_lt _ (by omega))]
      congr 1
      omega

theorem natToDigits_injective : Function.Injective natToDigits := by
  intro m n h
  have h2 := digitsToNat_natToDigits m
  rw [h, digitsToNat_natToDigits] at h2
  exact ((Option.some.injEq _ _).mp h2).symm

theorem natToString_injective : Function.Injective natToString := by
  intro m n h
  exact natToDigits_injective (congrArg String.data h)

theorem natToDigits_lt_ten {n : Nat} (h : n < 10) :
    natToDigits n = [digitChar n] := by
  unfold natToDigits
  rw [dif_pos h]

theorem natToString_lt_ten {n : Nat} (h : n < 10) :
    natToString n = String.mk [digitChar n] := by
  unfold natToString
  rw [natToDigits_lt_ten h]

theorem intToString_zero : intToString 0 = "0" := by
  unfold intToString
  rw [if_neg (by decide), show ((0 : Int).toNat) = 0 from rfl,
    natToString_lt_ten (by decide)]
  decide

theorem intToString_seven : intToString 7 = "7" := by
  unfold intToString
  rw [if_neg (by decide), show ((7 : Int).toNat) = 7 from rfl,
    natToString_lt_ten (by decide)]
  decide

theorem dropWhile_eq_self_of (p : Char → Bool) (l : List Char)
    (h : ∀ c ∈ l, p c = false) : l.dropWhile p = l := by
  cases l with
  | nil => rfl
  | cons c cs => simp [List.dropWhile_cons, h c (by simp)]

theorem dropWhile_eq_nil_of (p : Char → Bool) (l : List Char)
    (h : ∀ c ∈ l, p c = true) : l.dropWhile p = [] := by
  induction l with
  | nil => rfl
  | cons c cs ih =>
    simp only [List.dropWhile_cons, h c (by simp)]
    exact ih fun x hx => h x (by simp [hx])

theorem trimChars_eq_self (l : List Char)
    (h : ∀ c ∈ l, isJsSpace c = false) : trimChars l = l := by
  unfold trimChars
  rw [dropWhile_eq_self_of _ _ h,
    dropWhile_eq_self_of _ _ fun c hc => h c (List.mem_reverse.mp hc),
    List.reverse_reverse]

theorem trimChars_eq_nil (l : List Char)
    (h : ∀ c ∈ l, isJsSpace c = true) : trimChars l = [] := by
  unfold trimChars
  rw [dropWhile_eq_nil_of _ _ h]
  rfl

theorem isJsSpace_eq_false_of_digit {c : Char}
    (h1 : 48 ≤ c.toNat) (h2 : c.toNat ≤ 57) : isJsSpace c = false := by
  simp only [isJsSpace, Bool.or_eq_false_iff, decide_eq_false_iff_not]
  omega

theorem jsNumOfChars_natToDigits (m : Nat) :
    jsNumOfChars (natToDigits m) = .int m := by
  have hne := natToDigits_ne_nil m
  have hdig := natToDigits_digits m
  cases hcs : natToDigits m with
  | nil => exact absurd hcs hne
  | cons c rest =>
    have hc : 48 ≤ c.toNat ∧ c.toNat ≤ 57 := hdig c (by rw [hcs]; simp)
    have hparse : parseDigits (c :: rest) = some m := by
      have := digitsToNat_natToDigits m
      rw [hcs] at this
      simpa [parseDigits] using this
    simp only [jsNumOfChars]
    rw [if_neg (by omega), if_neg (by omega), hparse]

theorem jsNumOfString_natToString (m : Nat) :
    jsNumOfString (natToString m) = .int m := by
  unfold jsNumOfString natToString
  rw [show (String.mk (natToDigits m)).data = natToDigits m from rfl,
    trimChars_eq_self _ fun c hc =>
      isJsSpace_eq_false_of_digit (natToDigits_digits m c hc).1
        (natToDigits_digits m c hc).2]
  exact jsNumOfChars_natToDigits m

/-- Parse-of-print round trip for JS integer stringification: the string
stored by the Number branch of `set` reads back as the same number. -/
theorem jsNumOfString_intToString (n : Int) :
    jsNumOfString (intToString n) = .int n := by
  unfold intToString
  split
  · next hneg =>
    have hdata : ("-" ++ natToString n.natAbs).data =
        Char.ofNat 45 :: natToDigits n.natAbs := rfl
    unfold jsNumOfString
    rw [hdata, trimChars_eq_self]
    · have hne := natToDigits_ne_nil n.natAbs
      have hparse : parseDigits (natToDigits n.natAbs) = some n.natAbs := by
        cases hcs : natToDigits n.natAbs with
        | nil => exact absurd hcs hne
        | cons c rest =>
          have := digitsToNat_natToDigits n.natAbs
          rw [hcs] at this
          simpa [parseDigits] using this
      simp only [jsNumOfChars]
      rw [if_pos (by decide), hparse]
      show JSNum.int (-(n.natAbs : Int)) = JSNum.int n
      congr 1
      omega
    · intro c hc
      rw [List.mem_cons] at hc
      rcases hc with rfl | hc
      · decide
      · exact isJsSpace_eq_false_of_digit
          (natToDigits_digits n.natAbs c hc).1
          (natToDigits_digits n.natAbs c hc).2
  · next hpos =>
    rw [jsNumOfString_natToString]
    congr 1
    omega

/-! Association lists with unique keys model both the element's attribute
store (keys are full attribute names) and the document's `id` registry
(keys are element handles). -/

/-- Lookup in an association list (first matching key). -/
def alistGet {κ : Type} [DecidableEq κ] (l : List (κ × String)) (k : κ) :
    Option String :=
  match l with
  | [] => none
  | p :: rest => if p.1 = k then some p.2 else alistGet rest k

/-- Update-or-append in an association list, as DOM `setAttribute` and
`id` assignment behave. -/
def alistSet {κ : Type} [DecidableEq κ] (l : List (κ × String)) (k : κ)
    (v : String) : List (κ × String) :=
  match l with
  | [] => [(k, v)]
  | p :: rest => if p.1 = k then (k, v) :: rest else p :: alistSet rest k v

/-- Key removal from an association list, as DOM `removeAttribute`. -/
def alistRemove {κ : Type} [DecidableEq κ] (l : List (κ × String)) (k : κ) :
    List (κ × String) :=
  match l with
  | [] => []
  | p :: rest => if p.1 = k then alistRemove rest k else p :: alistRemove rest k

theorem alistGet_alistSet_self {κ : Type} [DecidableEq κ]
    (l : List (κ × String)) (k : κ) (v : String) :
    alistGet (alistSet l k v) k = some v := by
  induction l with
  | nil => simp [alistGet, alistSet]
  | cons p rest ih =>
    by_cases h : p.1 = k
    · simp [alistGet, alistSet, h]
    · simp [alistGet, alistSet, h, ih]

theorem alistGet_alistSet_ne {κ : Type} [DecidableEq κ]
    (l : List (κ × String)) (k k' : κ) (v : String) (hne : k' ≠ k) :
    alistGet (alistSet l k v) k' = alistGet l k' := by
  induction l with
  | nil =>
    simp only [alistSet, alistGet]
    rw [if_neg fun h2 => hne h2.symm]
  | cons p rest ih =>
    by_cases h : p.1 = k
    · rw [show alistSet (p :: rest) k v = (k, v) :: rest from by
        simp [alistSet, h]]
      simp only [alistGet]
      rw [if_neg fun h2 => hne h2.symm, if_neg fun h2 => hne (h2.symm.trans h)]
    · rw [show alistSet (p :: rest) k v = p :: alistSet rest k v from by
        simp [alistSet, h]]
      simp only [alistGet, ih]

theorem alistGet_alistRemove_self {κ : Type} [DecidableEq κ]
    (l : List (κ × String)) (k : κ) :
    alistGet (alistRemove l k) k = none := by
  induction l with
  | nil => rfl
  | cons p rest ih =>
    by_cases h : p.1 = k
    · simp [alistRemove, h, ih]
    · simp [alistRemove, alistGet, h, ih]

/-! The element's attribute store and the DOM operations the codec uses. -/

/-- Attribute store of the wrapped element: full attribute name to raw
string value. -/
abbrev Store := List (String × String)

/-- DOM `Element.getAttribute`: `none` models the attribute being absent
(JS `null`). -/
def getAttribute (st : Store) (k : String) : Option String :=
  alistGet st k

/-- DOM `Element.setAttribute`. -/
def setAttribute (st : Store) (k v : String) : Store :=
  alistSet st k v

/-- DOM `Element.removeAttribute`. -/
def removeAttribute (st : Store) (k : String) : Store :=
  alistRemove st k

/-- JavaScript runtime values that can reach `set`'s value parameter.
Element handles are naturals; `list` covers both arrays and NodeLists of
arbitrary members.  `num` carries a JS number (integer fragment or NaN). -/
inductive JSValue where
  | str (s : String)
  | boolean (b : Bool)
  | num (n : JSNum)
  | bigint (i : Int)
  | elem (e : Nat)
  | list (vs : List JSValue)
  | null
  | undefined

/-- Document-wide state outside the wrapped element's own attribute store:
the `id` field of every element handle (empty string when unset, as in the
DOM) and the static `EasyAria.#idCounter`. -/
structure Doc where
  ids : List (Nat × String)
  counter : Nat
deriving DecidableEq, Repr

/-- Document state at page load for the claims' scenarios: no element has
an identifier and the counter holds its initial value 1 (source line 31). -/
def initialDoc : Doc :=
  ⟨[], 1⟩

/-- Reads the `id` field of element handle `e` ("" when unset). -/
def lookupId (d : Doc) (e : Nat) : String :=
  match alistGet d.ids e with
  | some s => s
  | none => ""

/-- Identifier produced by `EasyAria.#generateId` from counter value `c`. -/
def freshId (c : Nat) : String :=
  "easy-aria-id-" ++ natToString c

/-- `EasyAria.#getId`: a non-Element input yields "" (instanceof guard); an
element lacking an id gets the next generated identifier assigned, and the
(possibly updated) `id` field is returned. -/
def getId (v : JSValue) (d : Doc) : String × Doc :=
  match v with
  | .elem e =>
      if lookupId d e = "" then
        let d' : Doc := ⟨alistSet d.ids e (freshId d.counter), d.counter + 1⟩
        (lookupId d' e, d')
      else (lookupId d e, d)
  | _ => ("", d)

/-- Left-to-right resolution of a collection of values to identifiers, as
`Array.prototype.map.call(value, el => EasyAria.#getId(el))` threads the
static counter. -/
def getIds (vs : List JSValue) (d : Doc) : List String × Doc :=
  match vs with
  | [] => ([], d)
  | v :: rest =>
      let r := getId v d
      let rs := getIds rest r.2
      (r.1 :: rs.1, rs.2)

/-! The closed attribute vocabulary and its value domains.  The three
switches in the source (`set` lines 202-530, `unset` lines 555-614, `get`
lines 655-844) enumerate the same 48 un-prefixed lowercase names; the
branch bodies group them into the seven behaviours captured by `Domain`
below, with the permitted token lists copied from the respective `case`
labels. -/

/-- The 48 recognized un-prefixed ARIA 1.2 attribute names. -/
inductive Attr where
  | activedescendant
  | atomic
  | autocomplete
  | busy
  | checked
  | colcount
  | colindex
  | colspan
  | controls
  | current
  | describedby
  | details
  | disabled
  | dropeffect
  | errormessage
  | expanded
  | flowto
  | grabbed
  | haspopup
  | hidden
  | invalid
  | keyshortcuts
  | label
  | labelledby
  | level
  | live
  | modal
  | multiline
  | multiselectable
  | orientation
  | owns
  | placeholder
  | posinset
  | pressed
  | readonly
  | relevant
  | required
  | roledescription
  | rowcount
  | rowindex
  | rowspan
  | selected
  | setsize
  | sort
  | valuemax
  | valuemin
  | valuenow
  | valuetext
deriving DecidableEq, Repr

/-- Lowercase name of each attribute, as matched by the `case` labels. -/
def Attr.name : Attr → String
  | .activedescendant => "activedescendant"
  | .atomic => "atomic"
  | .autocomplete => "autocomplete"
  | .busy => "busy"
  | .checked => "checked"
  | .colcount => "colcount"
  | .colindex => "colindex"
  | .colspan => "colspan"
  | .controls => "controls"
  | .current => "current"
  | .describedby => "describedby"
  | .details => "details"
  | .disabled => "disabled"
  | .dropeffect => "dropeffect"
  | .errormessage => "errormessage"
  | .expanded => "expanded"
  | .flowto => "flowto"
  | .grabbed => "grabbed"
  | .haspopup => "haspopup"
  | .hidden => "hidden"
  | .invalid => "invalid"
  | .keyshortcuts => "keyshortcuts"
  | .label => "label"
  | .labelledby => "labelledby"
  | .level => "level"
  | .live => "live"
  | .modal => "modal"
  | .multiline => "multiline"
  | .multiselectable => "multiselectable"
  | .orientation => "orientation"
  | .owns => "owns"
  | .placeholder => "placeholder"
  | .posinset => "posinset"
  | .pressed => "pressed"
  | .readonly => "readonly"
  | .relevant => "relevant"
  | .required => "required"
  | .roledescription => "roledescription"
  | .rowcount => "rowcount"
  | .rowindex => "rowindex"
  | .rowspan => "rowspan"
  | .selected => "selected"
  | .setsize => "setsize"
  | .sort => "sort"
  | .valuemax => "valuemax"
  | .valuemin => "valuemin"
  | .valuenow => "valuenow"
  | .valuetext => "valuetext"

/-- All 48 attributes, in the order of the `Attr` constructors. -/
def allAttributes : List Attr :=
  [.activedescendant, .atomic, .autocomplete, .busy, .checked, .colcount,
   .colindex, .colspan, .controls, .current, .describedby, .details,
   .disabled, .dropeffect, .errormessage, .expanded, .flowto, .grabbed,
   .haspopup, .hidden, .invalid, .keyshortcuts, .label, .labelledby,
   .level, .live, .modal, .multiline, .multiselectable, .orientation,
   .owns, .placeholder, .posinset, .pressed, .readonly, .relevant,
   .required, .roledescription, .rowcount, .rowindex, .rowspan, .selected,
   .setsize, .sort, .valuemax, .valuemin, .valuenow, .valuetext]

/-- The closed vocabulary of recognized (lowercase) attribute names. -/
def recognizedNames : List String :=
  allAttributes.map Attr.name

/-- Name recognition performed by the `switch (attribute)` statements:
an unmatched (already lowercased) name falls to the `default` branch,
modelled by `none`. -/
def parseAttr (s : String) : Option Attr :=
  allAttributes.find? fun a => a.name = s

/-- Value-domain behaviour of an attribute, one constructor per distinct
branch shape in the source's `set`/`get` switches. -/
inductive Domain where
  | arbitraryString
  | idref
  | idrefList
  | boolOnly
  | boolWithTokens (tokens : List String)
  | enumTokens (tokens : List String)
  | number
deriving DecidableEq, Repr

/-- Domain of each attribute: the grouping of `case` labels in the source's
`set` switch (identically grouped in `get`), token lists copied from the
corresponding branches. -/
def Attr.domain : Attr → Domain
  | .keyshortcuts | .label | .placeholder | .roledescription
  | .valuetext => .arbitraryString
  | .activedescendant | .details | .errormessage => .idref
  | .controls | .describedby | .flowto | .labelledby | .owns => .idrefList
  | .atomic | .busy | .disabled | .modal | .multiline | .multiselectable
  | .readonly | .required => .boolOnly
  | .expanded | .grabbed | .hidden | .selected =>
      .boolWithTokens ["undefined"]
  | .checked | .pressed => .boolWithTokens ["mixed", "undefined"]
  | .current => .boolWithTokens ["page", "step", "location", "date", "time"]
  | .haspopup => .boolWithTokens ["menu", "listbox", "tree", "grid", "dialog"]
  | .invalid => .boolWithTokens ["grammar", "spelling"]
  | .autocomplete => .enumTokens ["both", "inline", "list", "none"]
  | .dropeffect => .enumTokens ["copy", "execute", "link", "move", "none",
      "popup"]
  | .live => .enumTokens ["assertive", "off", "polite"]
  | .orientation => .enumTokens ["horizontal", "undefined", "vertical"]
  | .relevant => .enumTokens ["additions", "additions text", "all",
      "removals", "text"]
  | .sort => .enumTokens ["ascending", "descending", "none", "other"]
  | .colcount | .colindex | .colspan | .level | .posinset | .rowcount
  | .rowindex | .rowspan | .setsize | .valuemax | .valuemin
  | .valuenow => .number

/-- JS `String(b)` for booleans. -/
def jsBoolString (b : Bool) : String :=
  if b then "true" else "false"

/-- The `typeof value` guard plus `Number(value)` conversion of the Number
branch of `set`: only bigint, number and string inputs are converted, any
other type falls to the TypeError. -/
def jsToNumber : JSValue → Option JSNum
  | .bigint i => some (.int i)
  | .num n => some n
  | .str s => some (jsNumOfString s)
  | _ => none

/-- Outcome of a `set` call: the raised error if any, together with the
attribute store and document state when the call returns or throws.  The
source mutates the DOM through single `setAttribute` calls, so the state at
each `throw` site is threaded explicitly. -/
structure SetResult where
  error? : Option CodecError
  store : Store
  doc : Doc
deriving Repr

/-- Branch bodies of the source's `set` switch, one per domain; `key` is
the full `aria-` prefixed attribute name.  Each `case` group of the switch
(source lines 202-530) maps to the constructor-matching arm here, with the
`instanceof Element` / `Array.isArray` / `typeof` dispatch rendered as
pattern matching on `JSValue` in source order. -/
def setWithDomain (dom : Domain) (key : String) (value : JSValue)
    (st : Store) (d : Doc) : SetResult :=
  match dom with
  | .arbitraryString =>
      match value with
      | .str s => ⟨none, setAttribute st key s, d⟩
      | _ => ⟨some .invalidValue, st, d⟩
  | .idref =>
      match value with
      | .elem e =>
          let r := getId (.elem e) d
          ⟨none, setAttribute st key r.1, r.2⟩
      | .str s => ⟨none, setAttribute st key s, d⟩
      | _ => ⟨some .invalidValue, st, d⟩
  | .idrefList =>
      match value with
      | .elem e =>
          let r := getId (.elem e) d
          ⟨none, setAttribute st key r.1, r.2⟩
      | .list vs =>
          let r := getIds vs d
          ⟨none,
            setAttribute st key
              (String.intercalate " " (r.1.filter fun s => ¬s = "")),
            r.2⟩
      | .str s => ⟨none, setAttribute st key s, d⟩
      | _ => ⟨some .invalidValue, st, d⟩
  | .boolOnly =>
      match value with
      | .undefined => ⟨none, setAttribute st key (jsBoolString true), d⟩
      | .boolean b => ⟨none, setAttribute st key (jsBoolString b), d⟩
      | _ => ⟨some .invalidValue, st, d⟩
  | .boolWithTokens tokens =>
      match value with
      | .undefined => ⟨none, setAttribute st key (jsBoolString true), d⟩
      | .boolean b => ⟨none, setAttribute st key (jsBoolString b), d⟩
      | .str s =>
          if s ∈ tokens then ⟨none, setAttribute st key s, d⟩
          else ⟨some .invalidValue, st, d⟩
      | _ => ⟨some .invalidValue, st, d⟩
  | .enumTokens tokens =>
      match value with
      | .str s =>
          if s ∈ tokens then ⟨none, setAttribute st key s, d⟩
          else ⟨some .invalidValue, st, d⟩
      | _ => ⟨some .invalidValue, st, d⟩
  | .number =>
      match jsToNumber value with
      | some (.int n) => ⟨none, setAttribute st key (intToString n), d⟩
      | some .nan => ⟨some .invalidValue, st, d⟩
      | none => ⟨some .invalidValue, st, d⟩

/-- `EasyAria.set(attribute, value)` for a string attribute name: lowercase
the name, dispatch on the recognized attribute (unknown names reach the
`default` branch and throw), run the domain branch, and on success write
exactly one store entry under `"aria-" + name`. -/
def set (st : Store) (d : Doc) (name : String) (value : JSValue) :
    SetResult :=
  let name := jsToLowerCase name
  match parseAttr name with
  | none => ⟨some .invalidAttribute, st, d⟩
  | some a => setWithDomain a.domain ("aria-" ++ name) value st d

/-- Typed value returned by `get`: JS `null`, a raw or token string, a
boolean, or a number. -/
inductive GetValue where
  | null
  | str (s : String)
  | boolean (b : Bool)
  | num (n : Int)
deriving DecidableEq, Repr

/-- Branch bodies of the source's `get` switch, one per domain, applied to
the raw store value (`none` when the attribute is absent).  String-valued
domains return the raw value as is; token and boolean domains compare
strictly and fall through to `null`; the Number branch converts the raw
value with `Number`, where an absent attribute (JS `null`) converts to 0
and a NaN result falls through to `null`. -/
def getWithDomain (dom : Domain) (raw : Option String) : GetValue :=
  match dom with
  | .arbitraryString | .idref | .idrefList =>
      match raw with
      | some s => .str s
      | none => .null
  | .boolOnly =>
      match raw with
      | some s =>
          if s = "true" then .boolean true
          else if s = "false" then .boolean false
          else .null
      | none => .null
  | .boolWithTokens tokens =>
      match raw with
      | some s =>
          if s = "true" then .boolean true
          else if s = "false" then .boolean false
          else if s ∈ tokens then .str s
          else .null
      | none => .null
  | .enumTokens tokens =>
      match raw with
      | some s => if s ∈ tokens then .str s else .null
      | none => .null
  | .number =>
      match
        (match raw with
         | none => JSNum.int 0
         | some s => jsNumOfString s) with
      | .int n => .num n
      | .nan => .null

/-- `EasyAria.get(attribute)`: lowercase the name, read the raw store value
at `"aria-" + name`, and dispatch; unknown names throw. -/
def get (st : Store) (name : String) : Except CodecError GetValue :=
  let name := jsToLowerCase name
  match parseAttr name with
  | none => .error .invalidAttribute
  | some a =>
      .ok (getWithDomain a.domain (getAttribute st ("aria-" ++ name)))

/-- `EasyAria.unset(attribute)`: lowercase the name; every recognized name
removes `"aria-" + name` from the store, unknown names throw. -/
def unset (st : Store) (name : String) : Except CodecError Store :=
  let name := jsToLowerCase name
  match parseAttr name with
  | none => .error .invalidAttribute
  | some _ => .ok (removeAttribute st ("aria-" ++ name))

/-- Boolean-capable domains: the boolean-only and boolean-with-tokens
branch shapes. -/
def Domain.booleanCapable : Domain → Bool
  | .boolOnly => true
  | .boolWithTokens _ => true
  | _ => false

/-- Permitted non-boolean tokens of a domain (empty for the rest). -/
def Domain.tokens : Domain → List String
  | .boolWithTokens ts => ts
  | .enumTokens ts => ts
  | _ => []

theorem Attr.name_toLower (a : Attr) : jsToLowerCase a.name = a.name := by
  cases a <;> decide

theorem parseAttr_name (a : Attr) : parseAttr a.name = some a := by
  cases a <;> rfl

theorem getAttribute_setAttribute_self (st : Store) (k v : String) :
    getAttribute (setAttribute st k v) k = some v :=
  alistGet_alistSet_self st k v

theorem getAttribute_removeAttribute_self (st : Store) (k : String) :
    getAttribute (removeAttribute st k) k = none :=
  alistGet_alistRemove_self st k

theorem lookupId_assign_self (ids : List (Nat × String)) (c : Nat) (e : Nat)
    (v : String) : lookupId ⟨alistSet ids e v, c⟩ e = v := by
  simp [lookupId, alistGet_alistSet_self]

theorem lookupId_assign_ne (ids : List (Nat × String)) (c : Nat)
    (e e' : Nat) (v : String) (h : e' ≠ e) :
    lookupId ⟨alistSet ids e v, c⟩ e' = lookupId ⟨ids, c⟩ e' := by
  simp [lookupId, alistGet_alistSet_ne ids e e' v h]

theorem freshId_ne_empty (c : Nat) : freshId c ≠ "" := by
  intro h
  have h2 : ("easy-aria-id-" ++ natToString c).data = "".data :=
    congrArg String.data h
  rw [show ("easy-aria-id-" ++ natToString c).data =
    "easy-aria-id-".data ++ (natToString c).data from rfl] at h2
  exact absurd (List.append_eq_nil.mp h2).1 (by decide)

theorem freshId_injective : Function.Injective freshId := by
  intro m n h
  have h2 : "easy-aria-id-".data ++ natToDigits m =
      "easy-aria-id-".data ++ natToDigits n := congrArg String.data h
  exact natToDigits_injective (List.append_cancel_left h2)

/-- Counter monotonicity of a single identifier resolution. -/
theorem getId_counter_le (v : JSValue) (d : Doc) :
    d.counter ≤ ((getId v d).2).counter := by
  cases v <;> simp [getId]
  next e =>
    split <;> simp

/-- Resolving an element that lacks an id assigns the next generated
identifier and bumps the counter. -/
theorem getId_fresh (e : Nat) (d : Doc) (h : lookupId d e = "") :
    getId (.elem e) d =
      (freshId d.counter,
        ⟨alistSet d.ids e (freshId d.counter), d.counter + 1⟩) := by
  simp [getId, h, lookupId_assign_self]

/-- Resolving an element that already carries a non-empty id returns it
unchanged, mutating nothing. -/
theorem getId_existing (e : Nat) (d : Doc) (h : lookupId d e ≠ "") :
    getId (.elem e) d = (lookupId d e, d) := by
  simp [getId, h]

/-- Sequential identifier assignment: resolving a duplicate-free list of
elements all lacking ids yields exactly the generated identifiers of the
consecutive counter values, advances the counter by the length, and leaves
other elements' ids untouched. -/
theorem getIds_fresh (es : List Nat) (d : Doc) (hnd : es.Nodup)
    (hids : ∀ e ∈ es, lookupId d e = "") :
    (getIds (es.map JSValue.elem) d).1 =
        (List.range' d.counter es.length).map freshId ∧
      ((getIds (es.map JSValue.elem) d).2).counter =
        d.counter + es.length ∧
      ∀ x, x ∉ es →
        lookupId ((getIds (es.map JSValue.elem) d).2) x = lookupId d x := by
  induction es generalizing d with
  | nil => simp [getIds]
  | cons e rest ih =>
    have hnd' := List.nodup_cons.mp hnd
    have hd1 := getId_fresh e d (hids e (by simp))
    have hrest : ∀ x ∈ rest,
        lookupId ⟨alistSet d.ids e (freshId d.counter), d.counter + 1⟩ x
          = "" := by
      intro x hx
      have hne : x ≠ e := fun hxe => hnd'.1 (hxe ▸ hx)
      rw [lookupId_assign_ne _ _ _ _ _ hne]
      exact hids x (by simp [hx])
    obtain ⟨ih1, ih2, ih3⟩ :=
      ih ⟨alistSet d.ids e (freshId d.counter), d.counter + 1⟩ hnd'.2 hrest
    dsimp only at ih1 ih2 ih3
    refine ⟨?_, ?_, ?_⟩
    · simp only [List.map_cons, getIds, hd1]
      rw [List.length_cons, List.range'_succ, List.map_cons, ih1]
    · simp only [List.map_cons, getIds, hd1]
      rw [ih2, List.length_cons]
      omega
    · intro x hx
      simp only [List.mem_cons, not_or] at hx
      simp only [List.map_cons, getIds, hd1]
      rw [ih3 x hx.2, lookupId_assign_ne _ _ _ _ _ hx.1]
      rfl

/-- Token lists of boolean-with-token attributes never contain the literal
boolean strings. -/
theorem boolTokens_no_bool (a : Attr) (ts : List String)
    (h : a.domain = .boolWithTokens ts) : "true" ∉ ts ∧ "false" ∉ ts := by
  cases a <;> simp_all [Attr.domain] <;> subst h <;> decide

theorem set_name (a : Attr) (st : Store) (d : Doc) (v : JSValue) :
    set st d a.name v = setWithDomain a.domain ("aria-" ++ a.name) v st d := by
  simp [set, Attr.name_toLower, parseAttr_name]

theorem get_name (a : Attr) (st : Store) :
    get st a.name =
      .ok (getWithDomain a.domain (getAttribute st ("aria-" ++ a.name))) := by
  simp [get, Attr.name_toLower, parseAttr_name]

theorem unset_name (a : Attr) (st : Store) :
    unset st a.name = .ok (removeAttribute st ("aria-" ++ a.name)) := by
  simp [unset, Attr.name_toLower, parseAttr_name]

theorem parseAttr_eq_none (s : String) (h : s ∉ recognizedNames) :
    parseAttr s = none := by
  apply List.find?_eq_none.mpr
  intro a _ha
  simp only [decide_eq_true_eq]
  intro heq
  exact h (heq ▸ List.mem_map_of_mem Attr.name _ha)

theorem freshId_one : freshId 1 = "easy-aria-id-1" := by
  unfold freshId
  rw [natToString_lt_ten (by decide)]
  decide

theorem freshId_two : freshId 2 = "easy-aria-id-2" := by
  unfold freshId
  rw [natToString_lt_ten (by decide)]
  decide

theorem freshId_three : freshId 3 = "easy-aria-id-3" := by
  unfold freshId
  rw [natToString_lt_ten (by decide)]
  decide

/-! Claim theorems. -/

/-- C1: the claim says `get(name)` returns `null` whenever the store holds
no value under `"aria-" + name`, for every domain including the Number
attributes.  The code disagrees: in the Number branch the absent raw value
(JS `null`) is fed to `Number`, and `Number(null)` is `0`, so
`get('colcount')` on an element without the attribute evaluates to the
number 0 instead of `null`. -/
theorem C1_number_get_absent_eval :
    get ([] : Store) "colcount" = .ok (.num 0) := rfl

/-- C2 counterexample: the claim says a null or absent value passed to
`set` of a SingleReference or ReferenceList attribute is a no-op raising no
error; in the code both fall to the trailing `else` of the branch and throw
(`InvalidValue`), as shown for `set('details', null)` and
`set('owns', undefined)`. -/
theorem C2_counterexample :
    (set [] initialDoc "details" JSValue.null).error? =
        some CodecError.invalidValue ∧
      (set [] initialDoc "owns" JSValue.undefined).error? =
        some CodecError.invalidValue :=
  ⟨rfl, rfl⟩

/-- C2 amended: for every SingleReference and ReferenceList attribute,
calling `set(name)` with a null or absent value fails with `InvalidValue`
and leaves the store and document untouched (no write occurs). -/
theorem C2_null_absent_rejected (a : Attr)
    (h : a.domain = .idref ∨ a.domain = .idrefList)
    (st : Store) (d : Doc) (v : JSValue)
    (hv : v = .null ∨ v = .undefined) :
    set st d a.name v = ⟨some .invalidValue, st, d⟩ := by
  rw [set_name]
  rcases hv with rfl | rfl <;> rcases h with h | h <;> rw [h] <;> rfl

/-- C2 witness: `set('activedescendant', null)` and `set('owns', undefined)`
are rejected with `InvalidValue`, leaving the empty store empty. -/
theorem C2_witness :
    set [] initialDoc "activedescendant" JSValue.null =
        ⟨some CodecError.invalidValue, [], initialDoc⟩ ∧
      set [] initialDoc "owns" JSValue.undefined =
        ⟨some CodecError.invalidValue, [], initialDoc⟩ :=
  ⟨C2_null_absent_rejected Attr.activedescendant (Or.inl rfl) [] initialDoc
      JSValue.null (Or.inl rfl),
    C2_null_absent_rejected Attr.owns (Or.inr rfl) [] initialDoc
      JSValue.undefined (Or.inr rfl)⟩

/-- C9 counterexample: the claim speaks of a closed 38-entry vocabulary,
but the closed vocabulary enumerated by the source's switches has 48
entries. -/
theorem C9_counterexample : ¬recognizedNames.length = 38 := by decide

/-- C9 amended: the closed vocabulary has 48 entries, and for every
attribute name whose lowercase form lies outside it, each of `set`, `get`
and `unset` fails immediately with an `InvalidAttribute` error (the store
is left untouched, nothing is silently ignored). -/
theorem C9_unknown_name_rejected :
    recognizedNames.length = 48 ∧
      ∀ (name : String) (v : JSValue) (st : Store) (d : Doc),
        jsToLowerCase name ∉ recognizedNames →
        set st d name v = ⟨some .invalidAttribute, st, d⟩ ∧
          get st name = .error .invalidAttribute ∧
          unset st name = .error .invalidAttribute := by
  refine ⟨by decide, ?_⟩
  intro name v st d h
  have hp := parseAttr_eq_none (jsToLowerCase name) h
  refine ⟨?_, ?_, ?_⟩
  · simp [set, hp]
  · simp [get, hp]
  · simp [unset, hp]

/-- C9 witness: `set('frobnicate', true)` fails with `InvalidAttribute`,
as do `get` and `unset` on the same name. -/
theorem C9_witness :
    set [] initialDoc "frobnicate" (JSValue.boolean true) =
        ⟨some CodecError.invalidAttribute, [], initialDoc⟩ ∧
      get [] "frobnicate" = .error CodecError.invalidAttribute ∧
      unset [] "frobnicate" = .error CodecError.invalidAttribute :=
  C9_unknown_name_rejected.2 "frobnicate" (JSValue.boolean true) []
    initialDoc (by decide)

/-- C8: for every boolean-capable attribute (boolean-only and
boolean-with-tokens alike), `set(name)` with no value stores the string
"true" under `"aria-" + name`, and `get(name)` on the resulting store
returns the boolean `true`. -/
theorem C8_omitted_value_defaults_true (a : Attr)
    (h : a.domain.booleanCapable = true) (st : Store) (d : Doc) :
    set st d a.name .undefined =
        ⟨none, setAttribute st ("aria-" ++ a.name) "true", d⟩ ∧
      get (setAttribute st ("aria-" ++ a.name) "true") a.name =
        .ok (.boolean true) := by
  constructor
  · rw [set_name]
    cases hdom : a.domain <;> rw [hdom] at h <;>
      simp_all [Domain.booleanCapable, setWithDomain, jsBoolString]
  · rw [get_name, getAttribute_setAttribute_self]
    cases hdom : a.domain <;> rw [hdom] at h <;>
      simp_all [Domain.booleanCapable, getWithDomain]

/-- C8 witness: `set('atomic')` and `set('expanded')` with no value store
"true", and `get` then returns the boolean `true`. -/
theorem C8_witness :
    set [] initialDoc "atomic" JSValue.undefined =
        ⟨none, [("aria-atomic", "true")], initialDoc⟩ ∧
      get [("aria-atomic", "true")] "atomic" =
        .ok (GetValue.boolean true) :=
  C8_omitted_value_defaults_true Attr.atomic (by decide) [] initialDoc

/-- C5: for every boolean-capable attribute, a present raw store value
reads back as the boolean `true` exactly when it is the string "true" and
as `false` exactly when it is "false"; any other raw value matching none
of the attribute's permitted tokens yields `null`, never an error. -/
theorem C5_boolean_strict_read (a : Attr) (raw : String) (st : Store)
    (hb : a.domain.booleanCapable = true)
    (hraw : getAttribute st ("aria-" ++ a.name) = some raw) :
    (get st a.name = .ok (.boolean true) ↔ raw = "true") ∧
      (get st a.name = .ok (.boolean false) ↔ raw = "false") ∧
      (raw ≠ "true" → raw ≠ "false" → raw ∉ a.domain.tokens →
        get st a.name = .ok .null) := by
  rw [get_name, hraw]
  cases hdom : a.domain <;> rw [hdom] at hb
  case boolOnly =>
    refine ⟨?_, ?_, fun h1 h2 h3 => ?_⟩ <;>
      (simp only [getWithDomain]; split_ifs <;> simp_all)
  case boolWithTokens ts =>
    refine ⟨?_, ?_, fun h1 h2 h3 => ?_⟩
    · simp only [getWithDomain]
      split_ifs <;> simp_all
    · simp only [getWithDomain]
      split_ifs <;> simp_all
    · simp only [Domain.tokens] at h3
      simp only [getWithDomain]
      split_ifs <;> simp_all
  all_goals exact absurd hb (by simp [Domain.booleanCapable])

/-- C5 witness: a raw value " true" with a leading space on
`aria-expanded` (a boolean-with-tokens attribute) and a raw value "TRUE" on
`aria-atomic` (a boolean-only attribute) both read back as `null`. -/
theorem C5_witness :
    get [("aria-expanded", " true")] "expanded" = .ok GetValue.null ∧
      get [("aria-atomic", "TRUE")] "atomic" = .ok GetValue.null :=
  ⟨(C5_boolean_strict_read Attr.expanded " true" [("aria-expanded", " true")]
        (by decide) rfl).2.2 (by decide) (by decide) (by decide),
    (C5_boolean_strict_read Attr.atomic "TRUE" [("aria-atomic", "TRUE")]
        (by decide) rfl).2.2 (by decide) (by decide) (by decide)⟩

/-- C10: for every Number attribute, an empty or whitespace-only string is
coerced to the number 0: `set(name, raw)` for whitespace-only `raw`
succeeds and stores the string "0" (in particular `set(name, "")`), and
`get(name)` on a raw stored whitespace-only value returns the number 0
rather than `null`. -/
theorem C10_number_blank_is_zero (a : Attr) (hdom : a.domain = .number) :
    (∀ (raw : String), (∀ c ∈ raw.data, isJsSpace c = true) →
        ∀ (st : Store) (d : Doc),
          set st d a.name (.str raw) =
            ⟨none, setAttribute st ("aria-" ++ a.name) "0", d⟩) ∧
      (∀ (raw : String) (st : Store),
        (∀ c ∈ raw.data, isJsSpace c = true) →
        getAttribute st ("aria-" ++ a.name) = some raw →
        get st a.name = .ok (.num 0)) := by
  constructor
  · intro raw hsp st d
    rw [set_name, hdom]
    have hz : jsNumOfString raw = .int 0 := by
      unfold jsNumOfString
      rw [trimChars_eq_nil raw.data hsp]
      rfl
    simp only [setWithDomain, jsToNumber, hz, intToString_zero]
  · intro raw st hsp hraw
    rw [get_name, hraw, hdom]
    have hz : jsNumOfString raw = .int 0 := by
      unfold jsNumOfString
      rw [trimChars_eq_nil raw.data hsp]
      rfl
    simp only [getWithDomain, hz]

/-- C10 witness: `set('colcount', '')` stores "0", and a raw stored
whitespace-only value "   " under `aria-colcount` reads back as the
number 0. -/
theorem C10_witness :
    set [] initialDoc "colcount" (JSValue.str "") =
        ⟨none, [("aria-colcount", "0")], initialDoc⟩ ∧
      get [("aria-colcount", "   ")] "colcount" =
        .ok (GetValue.num 0) :=
  ⟨(C10_number_blank_is_zero Attr.colcount rfl).1 "" (by decide) []
      initialDoc,
    (C10_number_blank_is_zero Attr.colcount rfl).2 "   "
      [("aria-colcount", "   ")] (by decide) rfl⟩

/-- Per-domain atomicity of the `set` branch bodies. -/
theorem setWithDomain_atomic (dom : Domain) (key : String) (v : JSValue)
    (st : Store) (d : Doc) :
    ((setWithDomain dom key v st d).error?.isSome →
        (setWithDomain dom key v st d).store = st) ∧
      ((setWithDomain dom key v st d).error? = none →
        ∃ s, (setWithDomain dom key v st d).store = setAttribute st key s) := by
  cases dom <;> cases v <;>
    simp only [setWithDomain, jsToNumber] <;>
    (try split) <;>
    first
      | exact ⟨fun _ => trivial, fun h => absurd h (by simp)⟩
      | exact ⟨fun _ => rfl, fun h => absurd h (by simp)⟩
      | exact ⟨fun h => absurd h (by simp), fun _ => ⟨_, rfl⟩⟩

/-- C4: `set` is atomic on failure: whenever `set(name, value)` fails (with
`InvalidAttribute` or `InvalidValue`) the wrapped element's attribute store
at the point of the throw is the original store, untouched; when it
succeeds, the effect on the store is exactly one write, of the key
`"aria-" + lowercase(name)`. -/
theorem C4_set_atomic (name : String) (v : JSValue) (st : Store) (d : Doc) :
    ((set st d name v).error?.isSome → (set st d name v).store = st) ∧
      ((set st d name v).error? = none →
        ∃ s, (set st d name v).store =
          setAttribute st ("aria-" ++ jsToLowerCase name) s) := by
  simp only [set]
  cases hp : parseAttr (jsToLowerCase name) with
  | none => exact ⟨fun _ => rfl, fun h => by simp at h⟩
  | some a => exact setWithDomain_atomic a.domain _ v st d

/-- C4 witness: `set('sort', 'upwards')` fails with `InvalidValue` and the
(empty) store is unmutated. -/
theorem C4_witness :
    (set [] initialDoc "sort" (JSValue.str "upwards")).error? =
        some CodecError.invalidValue ∧
      (set [] initialDoc "sort" (JSValue.str "upwards")).store = [] :=
  ⟨rfl,
    (C4_set_atomic "sort" (JSValue.str "upwards") [] initialDoc).1
      (by rw [show (set [] initialDoc "sort" (JSValue.str "upwards")).error?
          = some CodecError.invalidValue from rfl]; rfl)⟩

/-- C6: identifier resolution is unique and idempotent: resolving a
duplicate-free list of handles lacking identifiers yields pairwise
distinct generated identifiers; the counter is monotonic over every
resolution; resolving a handle that already carries a non-empty identifier
returns it unchanged without mutation; and resolving the same handle twice
yields the same identifier and state both times. -/
theorem C6_identifier_resolution :
    (∀ (es : List Nat) (d : Doc), es.Nodup →
        (∀ e ∈ es, lookupId d e = "") →
        ((getIds (es.map JSValue.elem) d).1).Nodup) ∧
      (∀ (v : JSValue) (d : Doc), d.counter ≤ ((getId v d).2).counter) ∧
      (∀ (e : Nat) (d : Doc), lookupId d e ≠ "" →
        getId (.elem e) d = (lookupId d e, d)) ∧
      (∀ (e : Nat) (d : Doc),
        getId (.elem e) ((getId (.elem e) d).2) = getId (.elem e) d) := by
  refine ⟨?_, getId_counter_le, getId_existing, ?_⟩
  · intro es d hnd hids
    rw [(getIds_fresh es d hnd hids).1]
    exact List.Nodup.map freshId_injective (List.nodup_range' _ _ _ (by omega))
  · intro e d
    by_cases h : lookupId d e = ""
    · rw [getId_fresh e d h]
      have hne : lookupId
          (⟨alistSet d.ids e (freshId d.counter), d.counter + 1⟩ : Doc) e
          ≠ "" := by
        rw [lookupId_assign_self]
        exact freshId_ne_empty d.counter
      rw [getId_existing e _ hne, lookupId_assign_self]
    · rw [getId_existing e d h]
      exact getId_existing e d h

/-- C6 witness: resolving the three id-less handles 1, 2, 3 from the
initial document yields pairwise distinct identifiers, and resolving a
handle that already carries the id "x" returns "x" without mutation. -/
theorem C6_witness :
    ((getIds ([1, 2, 3].map JSValue.elem) initialDoc).1).Nodup ∧
      getId (.elem 5) ⟨[(5, "x")], 9⟩ = ("x", ⟨[(5, "x")], 9⟩) :=
  ⟨C6_identifier_resolution.1 [1, 2, 3] initialDoc (by decide)
      (by intro e he; rfl),
    C6_identifier_resolution.2.2.1 5 ⟨[(5, "x")], 9⟩ (by decide)⟩

/-- C7: for every ReferenceList attribute, `set(name, collection)` resolves
each entry to an identifier in input order, drops entries resolving to the
empty identifier, and stores the remainder joined by single spaces in input
order; in particular for three distinct id-less handles, three fresh
sequential identifiers are assigned and `get` returns them space-joined in
input order. -/
theorem C7_reference_list (a : Attr) (hdom : a.domain = .idrefList)
    (vs : List JSValue) (st : Store) (d : Doc) :
    set st d a.name (.list vs) =
        ⟨none,
          setAttribute st ("aria-" ++ a.name)
            (String.intercalate " "
              ((getIds vs d).1.filter fun s => ¬s = "")),
          (getIds vs d).2⟩ ∧
      (∀ (e₁ e₂ e₃ : Nat), e₁ ≠ e₂ → e₁ ≠ e₃ → e₂ ≠ e₃ →
        lookupId d e₁ = "" → lookupId d e₂ = "" → lookupId d e₃ = "" →
        vs = [JSValue.elem e₁, JSValue.elem e₂, JSValue.elem e₃] →
        get (set st d a.name (.list vs)).store a.name =
          .ok (.str (String.intercalate " "
            [freshId d.counter, freshId (d.counter + 1),
              freshId (d.counter + 2)]))) := by
  have hset : set st d a.name (.list vs) =
      ⟨none,
        setAttribute st ("aria-" ++ a.name)
          (String.intercalate " "
            ((getIds vs d).1.filter fun s => ¬s = "")),
        (getIds vs d).2⟩ := by
    rw [set_name, hdom]
    rfl
  refine ⟨hset, ?_⟩
  intro e₁ e₂ e₃ h12 h13 h23 hi1 hi2 hi3 hvs
  subst hvs
  have hids : (getIds [JSValue.elem e₁, JSValue.elem e₂, JSValue.elem e₃]
      d).1 = [freshId d.counter, freshId (d.counter + 1),
        freshId (d.counter + 2)] := by
    have h := (getIds_fresh [e₁, e₂, e₃] d
      (by simp [List.nodup_cons, h12, h13, h23])
      (by intro e he
          rcases List.mem_cons.mp he with rfl | he
          · exact hi1
          rcases List.mem_cons.mp he with rfl | he
          · exact hi2
          rcases List.mem_cons.mp he with rfl | he
          · exact hi3
          · exact absurd he (List.not_mem_nil e))).1
    simpa [List.range'] using h
  rw [hset]
  simp only
  rw [get_name, getAttribute_setAttribute_self, hdom, hids]
  have hfilter : ([freshId d.counter, freshId (d.counter + 1),
      freshId (d.counter + 2)].filter fun s => ¬s = "") =
      [freshId d.counter, freshId (d.counter + 1),
        freshId (d.counter + 2)] := by
    simp [List.filter, freshId_ne_empty]
  rw [hfilter]
  rfl

/-- C7 witness: `set('owns', [h1, h2, h3])` for the id-less handles 1, 2, 3
of the initial document stores the three fresh sequential identifiers
space-joined in input order, and `get('owns')` returns that string. -/
theorem C7_witness :
    get (set [] initialDoc "owns"
        (JSValue.list [JSValue.elem 1, JSValue.elem 2,
          JSValue.elem 3])).store "owns" =
      .ok (GetValue.str
        "easy-aria-id-1 easy-aria-id-2 easy-aria-id-3") := by
  have h := (C7_reference_list Attr.owns rfl
      [JSValue.elem 1, JSValue.elem 2, JSValue.elem 3] [] initialDoc).2
      1 2 3 (by decide) (by decide) (by decide) rfl rfl rfl rfl
  show get (set [] initialDoc Attr.owns.name
      (JSValue.list [JSValue.elem 1, JSValue.elem 2,
        JSValue.elem 3])).store Attr.owns.name =
    .ok (GetValue.str "easy-aria-id-1 easy-aria-id-2 easy-aria-id-3")
  rw [h, show initialDoc.counter = 1 from rfl,
    show (1 : Nat) + 1 = 2 from rfl, show (1 : Nat) + 2 = 3 from rfl,
    freshId_one, freshId_two, freshId_three]
  rfl

/-- C3: round trip through the store: whenever `set(name, v)` succeeds,
`get(name)` on the resulting store returns the canonical form of `v` —
for Number attributes the raw string is the restringified coerced number
and `get` returns exactly the supplied numeric value (so
`set('colcount', '007')` stores "7" and reads back as 7); boolean and
(token or plain) string values are returned exactly equal to the value
supplied; an omitted value reads back as boolean `true`; an element reads
back as its resolved identifier; and a collection reads back as the
space-joined resolved identifiers. -/
theorem C3_round_trip (a : Attr) (v : JSValue) (st : Store) (d : Doc)
    (hok : (set st d a.name v).error? = none) :
    (∀ n : Int, a.domain = .number → jsToNumber v = some (.int n) →
        (set st d a.name v).store =
            setAttribute st ("aria-" ++ a.name) (intToString n) ∧
          get (set st d a.name v).store a.name = .ok (.num n)) ∧
      (∀ b : Bool, v = .boolean b →
        get (set st d a.name v).store a.name = .ok (.boolean b)) ∧
      (∀ s : String, v = .str s → a.domain ≠ .number →
        get (set st d a.name v).store a.name = .ok (.str s)) ∧
      (v = .undefined →
        get (set st d a.name v).store a.name = .ok (.boolean true)) ∧
      (∀ e : Nat, v = .elem e →
        get (set st d a.name v).store a.name =
          .ok (.str (getId (.elem e) d).1)) ∧
      (∀ vs : List JSValue, v = .list vs →
        get (set st d a.name v).store a.name =
          .ok (.str (String.intercalate " "
            ((getIds vs d).1.filter fun s => ¬s = "")))) := by
  refine ⟨?_, ?_, ?_, ?_, ?_, ?_⟩
  · intro n hdom hn
    constructor
    · rw [set_name, hdom]
      simp only [setWithDomain, hn]
    · rw [set_name, hdom]
      simp only [setWithDomain, hn]
      rw [get_name, getAttribute_setAttribute_self, hdom]
      simp only [getWithDomain, jsNumOfString_intToString]
  · intro b hv
    subst hv
    rw [set_name] at hok
    rw [set_name]
    cases hdom : a.domain <;> rw [hdom] at hok <;>
      first
        | exact Option.noConfusion hok
        | (simp only [setWithDomain]
           rw [get_name, getAttribute_setAttribute_self, hdom]
           cases b <;> rfl)
  · intro s hv hnum
    subst hv
    rw [set_name] at hok
    rw [set_name]
    cases hdom : a.domain <;> rw [hdom] at hok
    case number => exact absurd hdom hnum
    case arbitraryString =>
      simp only [setWithDomain]
      rw [get_name, getAttribute_setAttribute_self, hdom]
      rfl
    case idref =>
      simp only [setWithDomain]
      rw [get_name, getAttribute_setAttribute_self, hdom]
      rfl
    case idrefList =>
      simp only [setWithDomain]
      rw [get_name, getAttribute_setAttribute_self, hdom]
      rfl
    case boolOnly => exact absurd hok (by simp [setWithDomain])
    case boolWithTokens ts =>
      simp only [setWithDomain] at hok
      split at hok
      · next hmem =>
        have hno := boolTokens_no_bool a ts hdom
        simp only [setWithDomain]
        rw [if_pos hmem, get_name, getAttribute_setAttribute_self, hdom]
        simp only [getWithDomain]
        rw [if_neg fun (h : s = "true") => hno.1 (h ▸ hmem),
          if_neg fun (h : s = "false") => hno.2 (h ▸ hmem), if_pos hmem]
      · next hmem => simp at hok
    case enumTokens ts =>
      simp only [setWithDomain] at hok
      split at hok
      · next hmem =>
        simp only [setWithDomain]
        rw [if_pos hmem, get_name, getAttribute_setAttribute_self, hdom]
        simp only [getWithDomain]
        rw [if_pos hmem]
      · next hmem => simp at hok
  · intro hv
    subst hv
    rw [set_name] at hok
    rw [set_name]
    cases hdom : a.domain <;> rw [hdom] at hok <;>
      first
        | exact Option.noConfusion hok
        | (simp only [setWithDomain]
           rw [get_name, getAttribute_setAttribute_self, hdom]
           rfl)
  · intro e hv
    subst hv
    rw [set_name] at hok
    rw [set_name]
    cases hdom : a.domain <;> rw [hdom] at hok <;>
      first
        | exact Option.noConfusion hok
        | (simp only [setWithDomain]
           rw [get_name, getAttribute_setAttribute_self, hdom]
           rfl)
  · intro vs hv
    subst hv
    rw [set_name] at hok
    rw [set_name]
    cases hdom : a.domain <;> rw [hdom] at hok <;>
      first
        | exact Option.noConfusion hok
        | (simp only [setWithDomain]
           rw [get_name, getAttribute_setAttribute_self, hdom]
           rfl)

/-- C3 witness: `set('colcount', '007')` stores the raw string "7" and
`get('colcount')` then returns the number 7. -/
theorem C3_witness :
    (set [] initialDoc "colcount" (JSValue.str "007")).store =
        [("aria-colcount", "7")] ∧
      get (set [] initialDoc "colcount" (JSValue.str "007")).store
        "colcount" = .ok (GetValue.num 7) := by
  have h := (C3_round_trip Attr.colcount (JSValue.str "007") [] initialDoc
      rfl).1 7 rfl rfl
  constructor
  · show (set [] initialDoc Attr.colcount.name (JSValue.str "007")).store =
      [("aria-colcount", "7")]
    rw [h.1, intToString_seven]
    rfl
  · show get (set [] initialDoc Attr.colcount.name
        (JSValue.str "007")).store Attr.colcount.name =
      .ok (GetValue.num 7)
    exact h.2

end EasyAria
